import Mathlib

/-!
Verification development for TaskFlow-Lite (vanilla-JS task manager).

This file gives a shallow embedding, in Lean 4, of the state-management and
persistence core of the repository:

* `modules/validation.js` — `validateTaskInput`, `sanitizeInput`;
* `modules/storage.js`    — `saveTasks`, `loadTasks` over a modelled
  localStorage content;
* `modules/render.js`     — `filterTasks`;
* `app.js`                — the `TaskFlowApp` mutation operations
  (`createTask`, `addTask`, `toggleTask`, `deleteTask`, `editTask`,
  `clearCompletedTasks`, `toggleAllTasks`, `saveState`, `undo`, `saveData`).

Modelling conventions:

* JavaScript numbers are modelled as `ℚ` (`Date.now()` yields integral values,
  `Math.random()` a fraction in `[0,1)`); float rounding is idealised away —
  none of the verified claims exercises it.
* JavaScript strings are Lean `String`s; `.trim()`, `.toLowerCase()`,
  `.substring` and regex replacements are modelled character-wise (for the
  ASCII inputs used in all concrete witnesses the models agree exactly with
  the JS semantics).
* `JSON.stringify` followed by `JSON.parse` of a well-formed task array is a
  deep copy, so undo-history snapshots are modelled directly as task lists.
* Exceptions caught by a surrounding `try/catch` are modelled with `Option`;
  the catch branch supplies the fallback value.
* DOM rendering, toasts, modals (the confirm path of a modal is modelled as
  accepted) and `console` logging have no effect on the modelled state and
  are omitted.
-/

set_option maxRecDepth 40000

namespace TaskFlow

/-- A task record, as built by `TaskFlowApp.createTask` (app.js:281-289) and
persisted by the storage module: numeric `id`, string `text`, boolean
`completed`, ISO-string timestamps. -/
structure Task where
  id : ℚ
  text : String
  completed : Bool
  createdAt : String
  updatedAt : String
deriving DecidableEq

/- ===================== JS string primitives ===================== -/

/-- JS whitespace class `\s` (also the set removed by `String.prototype.trim`):
space, tab, LF, VT, FF, CR, NBSP, and the Unicode space separators. -/
def isJsWs (c : Char) : Bool :=
  let n := c.toNat
  n == 32 || n == 9 || n == 10 || n == 11 || n == 12 || n == 13 ||
  n == 0xA0 || n == 0x1680 || (0x2000 ≤ n && n ≤ 0x200A) ||
  n == 0x2028 || n == 0x2029 || n == 0x202F || n == 0x205F ||
  n == 0x3000 || n == 0xFEFF

/-- JS `String.prototype.trim()`: drop leading and trailing `\s` characters. -/
def jsTrim (s : String) : String :=
  String.mk (((s.data.dropWhile isJsWs).reverse.dropWhile isJsWs).reverse)

/-- Helper for `.replace(/\s+/g, ' ')`: the flag records whether the previous
character was part of a whitespace run already emitted as a single space. -/
def collapseWsAux : List Char → Bool → List Char
  | [], _ => []
  | c :: rest, prevWs =>
    if isJsWs c then
      if prevWs then collapseWsAux rest true
      else ' ' :: collapseWsAux rest true
    else c :: collapseWsAux rest false

/-- JS `.replace(/\s+/g, ' ')`: each maximal whitespace run becomes one space. -/
def collapseWs (s : String) : String :=
  String.mk (collapseWsAux s.data false)

/-- JS `.toLowerCase()`, ASCII fragment (all concrete inputs are ASCII). -/
def jsToLower (s : String) : String :=
  String.mk (s.data.map Char.toLower)

/- ===================== validation.js ===================== -/

/-- Rule record `VALIDATION_RULES.task` (validation.js:21-28). -/
structure TaskRules where
  minLength : Nat
  maxLength : Nat
  required : Bool

/-- The concrete rule record of validation.js. -/
def taskRules : TaskRules :=
  { minLength := 1, maxLength := 200, required := true }

/-- Error / warning tags of `validateTaskInput` (the constant `message` and
`field` strings attached to each entry never influence behaviour and are
omitted). -/
inductive VKind where
  | REQUIRED
  | EMPTY_AFTER_TRIM
  | TOO_SHORT
  | TOO_LONG
  | INVALID_CHARS
  | DUPLICATE
  | APPROACHING_LIMIT
  | MANY_SPECIAL_CHARS
deriving DecidableEq

/-- Code points of the punctuation allowed by `VALIDATION_RULES.task.allowedChars`:
hyphen period comma bang question parens square-brackets curly-braces colon
semicolon double-quote single-quote at hash dollar percent caret ampersand
star plus equals underscore tilde backquote pipe backslash slash less greater. -/
def allowedPunct : List Nat :=
  [45, 46, 44, 33, 63, 40, 41, 91, 93, 123, 125, 58, 59, 34, 39,
   64, 35, 36, 37, 94, 38, 42, 43, 61, 95, 126, 96, 124, 92, 47, 60, 62]

/-- Membership in the regex character class
`[a-zA-Z0-9\s\-.,!?()[\]\x7b\x7d:;"'@#$%^&*+=_~\x60|\\/<>À-ɏḀ-ỿ]`. -/
def isAllowedChar (c : Char) : Bool :=
  let n := c.toNat
  (65 ≤ n && n ≤ 90) || (97 ≤ n && n ≤ 122) || (48 ≤ n && n ≤ 57) ||
  isJsWs c || allowedPunct.contains n ||
  (0xC0 ≤ n && n ≤ 0x24F) || (0x1E00 ≤ n && n ≤ 0x1EFF)

/-- A character counted by the special-character regex `/[^a-zA-Z0-9\s]/g`. -/
def isSpecialChar (c : Char) : Bool :=
  let n := c.toNat
  !((65 ≤ n && n ≤ 90) || (97 ≤ n && n ≤ 122) || (48 ≤ n && n ≤ 57) || isJsWs c)

/-- Result object of `validateTaskInput` (validation.js:50-55). -/
structure ValidationResult where
  isValid : Bool
  errors : List VKind
  warnings : List VKind
  cleaned : String
deriving DecidableEq

/-- Model of `validateTaskInput(input, existingTasks)` (validation.js:49-159).

`String(input || '')` is the identity on the string inputs modelled here.
The ratio test `charRatio > 0.3` is written with exact integer arithmetic
(`10 * special > 3 * length`); the float comparison agrees on every ratio
expressible with a denominator ≤ 200.  The `catch` branch of the source is
unreachable for string inputs and is not modelled. -/
def validateTaskInput (input : String) (existingTasks : List Task) : ValidationResult :=
  let value := jsTrim input
  if value = "" then
    { isValid := false, errors := [VKind.REQUIRED], warnings := [], cleaned := "" }
  else if value.length = 0 ∧ input ≠ "" then
    { isValid := false, errors := [VKind.EMPTY_AFTER_TRIM], warnings := [], cleaned := "" }
  else
    let errs0 := if value.length < taskRules.minLength then [VKind.TOO_SHORT] else []
    let errs1 := errs0 ++ (if taskRules.maxLength < value.length then [VKind.TOO_LONG] else [])
    let errs2 := errs1 ++ (if !(value.data.all isAllowedChar) then [VKind.INVALID_CHARS] else [])
    let isDup := 0 < existingTasks.length &&
      existingTasks.any (fun t => jsTrim (jsToLower t.text) == jsToLower value)
    let errs3 := errs2 ++ (if isDup then [VKind.DUPLICATE] else [])
    let warn0 := if taskRules.maxLength * 4 < value.length * 5 then [VKind.APPROACHING_LIMIT] else []
    let specialCharCount := (value.data.filter isSpecialChar).length
    let warn1 := warn0 ++
      (if 3 * value.length < 10 * specialCharCount ∧ 10 < value.length
       then [VKind.MANY_SPECIAL_CHARS] else [])
    { isValid := errs3.isEmpty, errors := errs3, warnings := warn1, cleaned := value }

/-- Model of `sanitizeInput(input)` (validation.js:255-264): trim, collapse whitespace
runs to single spaces, map CR/LF/TAB to spaces (a no-op after the collapse),
strip angle brackets, truncate to `maxLength`.  The `typeof input !== 'string'`
guard is subsumed by the `String` argument type. -/
def sanitizeInput (input : String) : String :=
  let s1 := jsTrim input
  let s2 := collapseWs s1
  let s3 := String.mk (s2.data.map (fun c => if c = '\r' ∨ c = '\n' ∨ c = '\t' then ' ' else c))
  let s4 := String.mk (s3.data.filter (fun c => !(c = '<' || c = '>')))
  String.mk (s4.data.take taskRules.maxLength)

/- ===================== storage.js ===================== -/

/-- JSON values, the possible results of `JSON.parse` (JSON has no
`undefined`; object keys are kept in insertion order, as `JSON.stringify`
and `JSON.parse` do). -/
inductive JValue where
  | null
  | bool (b : Bool)
  | num (q : ℚ)
  | str (s : String)
  | arr (elems : List JValue)
  | obj (fields : List (String × JValue))

/-- JS truthiness of a JSON value: `null`, `false`, `0` and `""` are falsy;
every object and array (even empty) is truthy. -/
def truthy : JValue → Bool
  | JValue.null => false
  | JValue.bool b => b
  | JValue.num q => !(q == 0)
  | JValue.str s => !(s == "")
  | JValue.arr _ => true
  | JValue.obj _ => true

/-- Property access `v.key` on a non-null value: field of an object, else
`undefined` (`none`).  Access on `null` throws and is handled separately at
each use site. -/
def getField (v : JValue) (key : String) : Option JValue :=
  match v with
  | JValue.obj fields => fields.lookup key
  | _ => none

/-- JS `a || b` where `a` is a possibly-undefined property: the left value if
it is present and truthy, otherwise the default. -/
def jsOr (a : Option JValue) (b : JValue) : JValue :=
  match a with
  | some v => if truthy v then v else b
  | none => b

/-- JS `Boolean(a)` of a possibly-undefined property. -/
def truthyOpt (a : Option JValue) : Bool :=
  match a with
  | some v => truthy v
  | none => false

/-- JS `typeof v === 'object'` for JSON values: objects, arrays and `null`. -/
def typeofObject : JValue → Bool
  | JValue.obj _ => true
  | JValue.arr _ => true
  | JValue.null => true
  | _ => false

/-- JS `Array.isArray`. -/
def isJsArray : JValue → Bool
  | JValue.arr _ => true
  | _ => false

/-- Content of one localStorage key, classified by what `getItem` +
`JSON.parse` can observe: key absent (`getItem` returns `null`), present but
the empty string (falsy), present but not valid JSON (`JSON.parse` throws),
or present and parsing to a JSON value.  This classification covers every
possible persisted byte content. -/
inductive RawContent where
  | absent
  | empty
  | malformed
  | parsed (v : JValue)

/-- The two task-related localStorage keys written by storage.js:
`taskflow_tasks` and `taskflow_tasks_meta`. -/
structure StoreState where
  tasksRaw : RawContent
  metaRaw : RawContent

/-- The element filter of `saveTasks` (storage.js:21-27):
`task && typeof task === 'object' && typeof task.id === 'number' &&
typeof task.text === 'string' && typeof task.completed === 'boolean'`. -/
def isValidTaskJ (v : JValue) : Bool :=
  truthy v && typeofObject v &&
  (match getField v "id" with | some (JValue.num _) => true | _ => false) &&
  (match getField v "text" with | some (JValue.str _) => true | _ => false) &&
  (match getField v "completed" with | some (JValue.bool _) => true | _ => false)

/-- Model of `saveTasks(tasks)` (storage.js:14-45).  A non-array argument hits the
`throw` and the `catch` returns `false` with nothing written; otherwise the
structurally valid elements are serialized under the tasks key and a fresh
metadata record under the meta key, returning `true`.  `nowIso` is the
`new Date().toISOString()` of the metadata; storage quota failures are not
modelled (`setItem` succeeds). -/
def saveTasks (tasks : JValue) (st : StoreState) (nowIso : String) : Bool × StoreState :=
  match tasks with
  | JValue.arr elems =>
    let validTasks := elems.filter isValidTaskJ
    let meta := JValue.obj
      [("lastModified", JValue.str nowIso),
       ("version", JValue.str "1.0.0"),
       ("taskCount", JValue.num validTasks.length)]
    (true, { tasksRaw := RawContent.parsed (JValue.arr validTasks),
             metaRaw := RawContent.parsed meta })
  | _ => (false, st)

/-- The defaulting map body of `loadTasks` (storage.js:67-73) on one array
element.  A `null` element makes the property accesses throw (caught by the
surrounding `try`), modelled as `none`. -/
def decodeElem (now : ℚ) (nowIso : String) (v : JValue) : Option JValue :=
  match v with
  | JValue.null => none
  | v => some (JValue.obj
      [("id", jsOr (getField v "id") (JValue.num now)),
       ("text", jsOr (getField v "text") (JValue.str "")),
       ("completed", JValue.bool (truthyOpt (getField v "completed"))),
       ("createdAt", jsOr (getField v "createdAt") (JValue.str nowIso)),
       ("updatedAt", jsOr (getField v "updatedAt")
          (jsOr (getField v "createdAt") (JValue.str nowIso)))])

/-- Model of `tasks.map(...)` over the defaulting body, inside the `try` of
`loadTasks`: the first element whose accesses throw (a `null`) aborts the
whole map, surfacing as `none`. -/
def decodeAll (now : ℚ) (nowIso : String) : List JValue → Option (List JValue)
  | [] => some []
  | v :: rest =>
    match decodeElem now nowIso v, decodeAll now nowIso rest with
    | some t, some ts => some (t :: ts)
    | _, _ => none

/-- Model of `loadTasks()` (storage.js:51-79) as a function of the persisted content
under the tasks key: absent or empty content yields `[]`; a parse failure is
caught and yields `[]`; a non-array value yields `[]`; an array is mapped
through the defaulting body, any thrown access (null element) being caught
into `[]`.  `now` / `nowIso` are the `Date.now()` / ISO defaults. -/
def loadTasks (c : RawContent) (now : ℚ) (nowIso : String) : List JValue :=
  match c with
  | RawContent.absent => []
  | RawContent.empty => []
  | RawContent.malformed => []
  | RawContent.parsed (JValue.arr elems) =>
    match decodeAll now nowIso elems with
    | some tasks => tasks
    | none => []
  | RawContent.parsed _ => []

/-- Encoding of an in-memory task as the JSON object that
`JSON.stringify` produces for it (field order as constructed in
`createTask`, app.js:281-289). -/
def encodeTask (t : Task) : JValue :=
  JValue.obj
    [("id", JValue.num t.id),
     ("text", JValue.str t.text),
     ("completed", JValue.bool t.completed),
     ("createdAt", JValue.str t.createdAt),
     ("updatedAt", JValue.str t.updatedAt)]

/-- Content classes for which the decode-resilience property claims `[]`:
key absent, empty content, unparsable content, or JSON that is not an array. -/
def isMalformedContent : RawContent → Bool
  | RawContent.absent => true
  | RawContent.empty => true
  | RawContent.malformed => true
  | RawContent.parsed (JValue.arr _) => false
  | RawContent.parsed _ => true

/- ===================== render.js ===================== -/

/-- Model of `filterTasks(tasks, filter)` (render.js:147-157): select by the
`completed` flag; any filter other than `active` / `completed` (including
`all`) returns the list unchanged. -/
def filterTasks (tasks : List Task) (filter : String) : List Task :=
  if filter = "active" then tasks.filter (fun task => !task.completed)
  else if filter = "completed" then tasks.filter (fun task => task.completed)
  else tasks

/- ===================== app.js : TaskFlowApp state ===================== -/

/-- The mutable fields of `TaskFlowApp` relevant to the task core
(app.js:14-23), together with the persisted copy.  `history` holds the
JSON-stringified snapshots (a stringify/parse round trip of a well-formed
task array is a deep copy, so each snapshot is modelled as the task list
itself); `historyIndex` starts at `-1`. -/
structure AppState where
  tasks : List Task
  history : List (List Task)
  historyIndex : Int
  storage : StoreState

/-- Replace the first task satisfying `p` (the object returned by
`Array.prototype.find`, mutated in place by the source). -/
def updateFirst (p : Task → Bool) (f : Task → Task) : List Task → List Task
  | [] => []
  | t :: rest => if p t then f t :: rest else t :: updateFirst p f rest

/-- The history update of `saveState`: push the snapshot, then drop the
oldest entry when the length exceeds 50. -/
def historyAfterPush (h : List (List Task)) (snap : List Task) : List (List Task) :=
  if 50 < (h ++ [snap]).length then (h ++ [snap]).tail else h ++ [snap]

/-- Model of `TaskFlowApp.saveState()` (app.js:503-513): push the current snapshot,
drop the oldest entry when the length exceeds 50, and point `historyIndex`
at the last entry. -/
def saveState (st : AppState) : AppState :=
  { st with
    history := historyAfterPush st.history st.tasks
    historyIndex := ((historyAfterPush st.history st.tasks).length : Int) - 1 }

/-- Model of `TaskFlowApp.saveData()` (app.js:531-537): write the current task list
through `saveTasks`; on failure only a notification is shown, the in-memory
state is kept either way. -/
def saveData (st : AppState) (nowIso : String) : AppState :=
  { st with storage := (saveTasks (JValue.arr (st.tasks.map encodeTask)) st.storage nowIso).2 }

/-- Model of `TaskFlowApp.undo()` (app.js:518-526): only when `historyIndex > 0`,
decrement it, reinstate the snapshot now pointed at, and persist. -/
def undo (st : AppState) (nowIso : String) : AppState :=
  if 0 < st.historyIndex then
    let i := st.historyIndex - 1
    let restored := st.history.getD i.toNat []
    saveData { st with historyIndex := i, tasks := restored } nowIso
  else st

/-- Model of `TaskFlowApp.createTask(text)` (app.js:281-289): fresh id
`Date.now() + Math.random()`, sanitized text, both timestamps set to now. -/
def createTask (text : String) (nowMs rand : ℚ) (nowIso : String) : Task :=
  { id := nowMs + rand
    text := sanitizeInput text
    completed := false
    createdAt := nowIso
    updatedAt := nowIso }

/-- Model of `TaskFlowApp.addTask(task)` (app.js:294-300): push history, prepend,
persist. -/
def addTask (st : AppState) (task : Task) (nowIso : String) : AppState :=
  let st1 := saveState st
  saveData { st1 with tasks := task :: st1.tasks } nowIso

/-- The task-creation path of `handleTaskSubmit` (app.js:185-205): validate
the raw input against the current tasks; on success build the task from the
cleaned value and add it; on failure only a notification is shown. -/
def submitTask (st : AppState) (input : String) (nowMs rand : ℚ) (nowIso : String) : AppState :=
  let validation := validateTaskInput input st.tasks
  if validation.isValid then
    addTask st (createTask validation.cleaned nowMs rand nowIso) nowIso
  else st

/-- Model of `TaskFlowApp.toggleTask(taskId)` (app.js:305-317): history is pushed
before the lookup; if a task with the id exists its flag is flipped, its
`updatedAt` bumped, and the list persisted — otherwise nothing further
happens. -/
def toggleTask (st : AppState) (taskId : ℚ) (nowIso : String) : AppState :=
  let st1 := saveState st
  match st1.tasks.find? (fun t => t.id == taskId) with
  | some _ =>
    let newTasks := updateFirst (fun t => t.id == taskId)
      (fun t => { t with completed := !t.completed, updatedAt := nowIso }) st1.tasks
    saveData { st1 with tasks := newTasks } nowIso
  | none => st1

/-- Model of `TaskFlowApp.deleteTask(taskId)` (app.js:322-331): history is pushed
before the index lookup; a found task is spliced out and the list persisted. -/
def deleteTask (st : AppState) (taskId : ℚ) (nowIso : String) : AppState :=
  let st1 := saveState st
  if (st1.tasks.findIdx? (fun t => t.id == taskId)).isSome then
    saveData { st1 with tasks := st1.tasks.eraseP (fun t => t.id == taskId) } nowIso
  else st1

/-- Model of `TaskFlowApp.editTask(taskId)` (app.js:336-355) with the `prompt` result
passed as `newText` (`none` models a cancelled prompt).  Nothing at all
happens unless the task exists, the prompt was confirmed, and the trimmed
new text differs from the current text; then the text is re-validated against
all other tasks and, only when valid, history is pushed, the task updated and
the list persisted. -/
def editTask (st : AppState) (taskId : ℚ) (newText : Option String) (nowIso : String) : AppState :=
  match st.tasks.find? (fun t => t.id == taskId) with
  | none => st
  | some task =>
    match newText with
    | none => st
    | some s =>
      if jsTrim s ≠ task.text then
        let validation := validateTaskInput s (st.tasks.filter (fun t => !(t.id == taskId)))
        if validation.isValid then
          let st1 := saveState st
          let newTasks := updateFirst (fun t => t.id == taskId)
            (fun t => { t with text := validation.cleaned, updatedAt := nowIso }) st1.tasks
          saveData { st1 with tasks := newTasks } nowIso
        else st
      else st

/-- Model of `TaskFlowApp.clearCompletedTasks()` (app.js:374-392) with the modal
confirmed: an early return when no task is completed, otherwise one history
push, one filter, one persist. -/
def clearCompletedTasks (st : AppState) (nowIso : String) : AppState :=
  let completedCount := (st.tasks.filter (fun t => t.completed)).length
  if completedCount = 0 then st
  else
    let st1 := saveState st
    saveData { st1 with tasks := st1.tasks.filter (fun t => !t.completed) } nowIso

/-- Model of `TaskFlowApp.toggleAllTasks()` (app.js:397-411): if every task is
completed mark all incomplete, else mark all complete; one history push, one
persist. -/
def toggleAllTasks (st : AppState) (nowIso : String) : AppState :=
  let allCompleted := st.tasks.all (fun t => t.completed)
  let st1 := saveState st
  let newTasks := st1.tasks.map
    (fun t => { t with completed := !allCompleted, updatedAt := nowIso })
  saveData { st1 with tasks := newTasks } nowIso

/-- One user-initiated mutating operation of the Task Store, carrying the
environment values (clock, random draw, ISO timestamp, prompt answer) the
source reads during it. -/
inductive Op where
  | create (input : String) (nowMs rand : ℚ) (nowIso : String)
  | toggle (taskId : ℚ) (nowIso : String)
  | edit (taskId : ℚ) (newText : Option String) (nowIso : String)
  | delete (taskId : ℚ) (nowIso : String)
  | clearCompleted (nowIso : String)
  | toggleAll (nowIso : String)

/-- Dispatch one operation to the corresponding `TaskFlowApp` method. -/
def applyOp (st : AppState) : Op → AppState
  | Op.create input nowMs rand nowIso => submitTask st input nowMs rand nowIso
  | Op.toggle taskId nowIso => toggleTask st taskId nowIso
  | Op.edit taskId newText nowIso => editTask st taskId newText nowIso
  | Op.delete taskId nowIso => deleteTask st taskId nowIso
  | Op.clearCompleted nowIso => clearCompletedTasks st nowIso
  | Op.toggleAll nowIso => toggleAllTasks st nowIso

/-- Apply a sequence of operations left to right. -/
def applyOps (st : AppState) : List Op → AppState
  | [] => st
  | op :: rest => applyOps (applyOp st op) rest

/-- Call `undo` `n` times (the ISO timestamp only feeds the metadata record
written by the persist inside `undo`). -/
def undoN (n : Nat) (st : AppState) (nowIso : String) : AppState :=
  match n with
  | 0 => st
  | Nat.succ m => undoN m (undo st nowIso) nowIso

/- ============ derived notions used in stating the claims ============ -/

/-- Operation `op`, run from `st`, performs exactly the history push of `saveState`:
the resulting history and history index are those `saveState` would
produce.  All operations except a rejected create, a no-op edit and an
empty clear-completed do this (toggle and delete push even when the id is
absent). -/
def Pushes (st : AppState) (op : Op) : Prop :=
  (applyOp st op).history = (saveState st).history ∧
  (applyOp st op).historyIndex = (saveState st).historyIndex

/-- Every operation of the sequence performs its history push from the state
it actually runs in. -/
def AllPush : AppState → List Op → Prop
  | _, [] => True
  | st, op :: rest => Pushes st op ∧ AllPush (applyOp st op) rest

/-- The task snapshots held immediately before each operation of a
sequence runs. -/
def snapshots : AppState → List Op → List (List Task)
  | _, [] => []
  | st, op :: rest => st.tasks :: snapshots (applyOp st op) rest

/-- Environment values consumed by one `create`: the raw input and the
`Date.now()` / `Math.random()` / ISO draws made during it. -/
structure CreateEnv where
  input : String
  nowMs : ℚ
  rand : ℚ
  nowIso : String

/-- A sequence of creates with the given environments. -/
def createOps (envs : List CreateEnv) : List Op :=
  envs.map (fun e => Op.create e.input e.nowMs e.rand e.nowIso)

/-- All task ids of a state are strictly below a bound. -/
def IdsBelow (b : ℚ) (tasks : List Task) : Prop :=
  ∀ t ∈ tasks, t.id < b

/- ============ concrete sample values for witnesses ============ -/

/-- Both task-related localStorage keys absent (a fresh browser profile). -/
def emptyStore : StoreState :=
  { tasksRaw := RawContent.absent, metaRaw := RawContent.absent }

/-- A freshly constructed `TaskFlowApp` (app.js:14-23) before any mutation:
no tasks, empty history, `historyIndex = -1`. -/
def freshApp : AppState :=
  { tasks := [], history := [], historyIndex := -1, storage := emptyStore }

/-- A structurally valid task whose numeric id is `0` (falsy in JS). -/
def zeroIdTask : Task :=
  { id := 0, text := "a", completed := false, createdAt := "c0", updatedAt := "u0" }

/-- An incomplete sample task. -/
def sampleActive : Task :=
  { id := 1, text := "alpha", completed := false, createdAt := "c1", updatedAt := "u1" }

/-- A completed sample task. -/
def sampleDone : Task :=
  { id := 2, text := "beta", completed := true, createdAt := "c2", updatedAt := "u2" }

/-- Raw input whose trimmed length is 202 but whose whitespace-collapsed
length is 3: one letter, 200 inner spaces, one letter. -/
def c6Input : String := "a" ++ String.mk (List.replicate 200 ' ') ++ "b"

/-- A create at millisecond 0 with random draw 0. -/
def envA : CreateEnv := { input := "a", nowMs := 0, rand := 0, nowIso := "t0" }

/-- A create one millisecond later, again drawing 0. -/
def envB : CreateEnv := { input := "b", nowMs := 1, rand := 0, nowIso := "t1" }

/-- A create in the same millisecond as `envA` with the same random draw. -/
def envDup : CreateEnv := { input := "b", nowMs := 0, rand := 0, nowIso := "t0" }

/- =========================== theorems =========================== -/

/-- Scenario check: an empty submission fails with `Required` (spec §8.2). -/
theorem scenario_empty_input_required :
    (validateTaskInput "" []).errors = [VKind.REQUIRED] := by decide

/-- Scenario check: a plain task text passes validation (spec §8.1). -/
theorem scenario_buy_milk_valid :
    (validateTaskInput "Buy milk" []).isValid = true := by decide

/-- Scenario check: 201 characters fail with `TooLong` (spec §8.3). -/
theorem scenario_201_chars_too_long :
    (validateTaskInput (String.mk (List.replicate 201 'a')) []).errors
      = [VKind.TOO_LONG] := by decide

/-- Scenario check: a case-insensitive duplicate fails with `Duplicate`
(spec §8.4). -/
theorem scenario_duplicate_case_insensitive :
    (validateTaskInput "buy milk"
      [{ id := 1, text := "Buy milk", completed := false,
         createdAt := "c", updatedAt := "c" }]).errors = [VKind.DUPLICATE] := by decide

/-- Scenario check: sanitizing collapses inner whitespace runs and trims. -/
theorem scenario_sanitize_collapses :
    sanitizeInput "  a   b  " = "a b" := by decide

/-- Scenario check: removing an angle bracket can leave an edge space. -/
theorem scenario_sanitize_edge_space :
    sanitizeInput "< a" = " a" := by decide

/-- C8: the `active` and `completed` projections of any task list are
disjoint, together they are exactly the list (as a permutation, each being an
order-preserving sublist), and the `all` filter returns the list itself. -/
theorem c8_filter_partition (T : List Task) :
    (∀ t, ¬(t ∈ filterTasks T "active" ∧ t ∈ filterTasks T "completed")) ∧
    (filterTasks T "active" ++ filterTasks T "completed").Perm T ∧
    (filterTasks T "active").Sublist T ∧
    (filterTasks T "completed").Sublist T ∧
    filterTasks T "all" = T := by
  have hact : filterTasks T "active" = T.filter (fun t => !t.completed) := rfl
  have hcomp : filterTasks T "completed" = T.filter (fun t => t.completed) := rfl
  refine ⟨?_, ?_, ?_, ?_, rfl⟩
  · rintro t ⟨ha, hc⟩
    rw [hact] at ha
    rw [hcomp] at hc
    have h1 := (List.mem_filter.mp ha).2
    have h2 := (List.mem_filter.mp hc).2
    simp only [Bool.not_eq_true'] at h1
    rw [h1] at h2
    exact Bool.false_ne_true h2
  · have hperm := List.filter_append_perm (fun t : Task => !t.completed) T
    simpa only [Bool.not_not, hact, hcomp] using hperm
  · rw [hact]; exact List.filter_sublist T
  · rw [hcomp]; exact List.filter_sublist T

/-- Instantiation of `c8_filter_partition` on a concrete two-task list. -/
theorem c8_filter_partition_witness :
    (∀ t, ¬(t ∈ filterTasks [sampleActive, sampleDone] "active" ∧
            t ∈ filterTasks [sampleActive, sampleDone] "completed")) ∧
    (filterTasks [sampleActive, sampleDone] "active" ++
      filterTasks [sampleActive, sampleDone] "completed").Perm [sampleActive, sampleDone] ∧
    (filterTasks [sampleActive, sampleDone] "active").Sublist [sampleActive, sampleDone] ∧
    (filterTasks [sampleActive, sampleDone] "completed").Sublist [sampleActive, sampleDone] ∧
    filterTasks [sampleActive, sampleDone] "all" = [sampleActive, sampleDone] :=
  c8_filter_partition [sampleActive, sampleDone]

/-- C10: `saveTasks` on any non-array argument reports failure and leaves
both persisted keys untouched. -/
theorem c10_saveTasks_nonarray (v : JValue) (st : StoreState) (nowIso : String)
    (h : isJsArray v = false) :
    saveTasks v st nowIso = (false, st) := by
  cases v with
  | arr elems => simp [isJsArray] at h
  | null => rfl
  | bool b => rfl
  | num q => rfl
  | str s => rfl
  | obj fields => rfl

/-- Witness: `c10_saveTasks_nonarray` applied to the number `3` over an empty store. -/
theorem c10_saveTasks_nonarray_witness :
    isJsArray (JValue.num 3) = false ∧
    saveTasks (JValue.num 3) emptyStore "m" = (false, emptyStore) :=
  ⟨rfl, c10_saveTasks_nonarray (JValue.num 3) emptyStore "m" rfl⟩

/-- C4: `loadTasks` returns the empty collection on every malformed content
class: key absent, empty stored string, unparsable bytes, or JSON that is
not an array.  (On arrays the thrown access of a `null` element is caught
into `[]` as well; totality of `loadTasks` is the never-raises part.) -/
theorem c4_loadTasks_resilient (c : RawContent) (now : ℚ) (nowIso : String)
    (h : isMalformedContent c = true) :
    loadTasks c now nowIso = [] := by
  cases c with
  | absent => rfl
  | empty => rfl
  | malformed => rfl
  | parsed v =>
    cases v with
    | arr elems => simp [isMalformedContent] at h
    | null => rfl
    | bool b => rfl
    | num q => rfl
    | str s => rfl
    | obj fields => rfl

/-- Witness: `c4_loadTasks_resilient` applied to unparsable stored bytes. -/
theorem c4_loadTasks_resilient_witness :
    isMalformedContent RawContent.malformed = true ∧
    loadTasks RawContent.malformed 7 "now" = [] :=
  ⟨rfl, c4_loadTasks_resilient RawContent.malformed 7 "now" rfl⟩

/-- C9: editing a present task with new text whose trimmed value equals the
task's current text changes nothing at all: no task field, no history entry,
no persisted write. -/
theorem c9_edit_same_text_noop (st : AppState) (taskId : ℚ) (s : String)
    (nowIso : String) (task : Task)
    (hfind : st.tasks.find? (fun t => t.id == taskId) = some task)
    (heq : jsTrim s = task.text) :
    editTask st taskId (some s) nowIso = st := by
  unfold editTask
  rw [hfind]
  simp [heq]

/-- Witness: `c9_edit_same_text_noop` applied to a one-task store and the unchanged
text `"alpha"`. -/
theorem c9_edit_same_text_noop_witness :
    [sampleActive].find? (fun t => t.id == 1) = some sampleActive ∧
    jsTrim "alpha" = sampleActive.text ∧
    editTask { freshApp with tasks := [sampleActive] } 1 (some "alpha") "t" =
      { freshApp with tasks := [sampleActive] } :=
  ⟨by decide, by decide,
   c9_edit_same_text_noop { freshApp with tasks := [sampleActive] } 1 "alpha" "t" sampleActive
     (by decide) (by decide)⟩

/-- A string whose length is zero is the empty string. -/
theorem string_length_eq_zero {s : String} (h : s.length = 0) : s = "" := by
  cases s with
  | mk data =>
    have hd : data = [] := List.length_eq_zero.mp h
    simp [hd]

/-- For a non-empty trimmed value, `validateTaskInput` always reports the
trimmed value itself as `cleaned`, whatever errors it also collects (the
only early returns require the trimmed value to be empty). -/
theorem validate_cleaned_of_trimmed (input : String) (existing : List Task)
    (h : jsTrim input ≠ "") :
    (validateTaskInput input existing).cleaned = jsTrim input := by
  have hlen : ¬((jsTrim input).length = 0 ∧ input ≠ "") := by
    intro hc
    exact h (string_length_eq_zero hc.1)
  simp [validateTaskInput, h, hlen]

/-- C6 (counterexample to the claim as stated): on input
`"a" ++ 200 spaces ++ "b"` the validator reports `TOO_LONG` although the
whitespace-collapsed value has length 3 — the length check runs on the
merely-trimmed value, with no internal collapsing. -/
theorem c6_counterexample :
    VKind.TOO_LONG ∈ (validateTaskInput c6Input []).errors ∧
    (collapseWs (jsTrim c6Input)).length ≤ taskRules.maxLength :=
  ⟨by decide, by decide⟩

/-- C6 (amended): `validateTaskInput` trims but does not collapse internal
whitespace: the length bound is checked against the trimmed raw value, and
the character check likewise runs on the trimmed value (when it is
non-empty; an empty trimmed value short-circuits to `Required`). -/
theorem c6_checks_use_trim_only (input : String) (existing : List Task) :
    (VKind.TOO_LONG ∈ (validateTaskInput input existing).errors ↔
        taskRules.maxLength < (jsTrim input).length) ∧
    (VKind.INVALID_CHARS ∈ (validateTaskInput input existing).errors ↔
        (jsTrim input ≠ "" ∧ ¬(jsTrim input).data.all isAllowedChar = true)) := by
  by_cases h : jsTrim input = ""
  · constructor
    · simp [validateTaskInput, h, taskRules]
    · simp [validateTaskInput, h]
  · have hlen : ¬((jsTrim input).length = 0 ∧ input ≠ "") := by
      intro hc
      exact h (string_length_eq_zero hc.1)
    constructor
    · simp only [validateTaskInput, if_neg h, if_neg hlen]
      split_ifs <;> simp_all
    · simp only [validateTaskInput, if_neg h, if_neg hlen]
      split_ifs <;> simp_all

/-- Instantiation of `c6_checks_use_trim_only` on the 202-character input. -/
theorem c6_checks_use_trim_only_witness :
    (VKind.TOO_LONG ∈ (validateTaskInput c6Input []).errors ↔
        taskRules.maxLength < (jsTrim c6Input).length) ∧
    (VKind.INVALID_CHARS ∈ (validateTaskInput c6Input []).errors ↔
        (jsTrim c6Input ≠ "" ∧ ¬(jsTrim c6Input).data.all isAllowedChar = true)) :=
  c6_checks_use_trim_only c6Input []

/-- C7 (counterexample to the claim as stated): for `s = "< a"`,
`sanitizeInput s = " a"` is non-empty and within bounds, yet validating it
trims again, so the reported `cleaned` value `"a"` differs from
`sanitizeInput s`. -/
theorem c7_counterexample :
    sanitizeInput "< a" ≠ "" ∧
    (sanitizeInput "< a").length ≤ taskRules.maxLength ∧
    (validateTaskInput (sanitizeInput "< a") []).cleaned ≠ sanitizeInput "< a" :=
  ⟨by decide, by decide, by decide⟩

/-- C7 (amended): whenever `sanitizeInput s` is non-empty, within the length
bound, and has no leading/trailing whitespace (angle-bracket removal can
leave edge spaces, which re-trimming then strips), validating it reports
`cleaned = sanitizeInput s`. -/
theorem c7_sanitize_validate_cleaned (s : String) (existing : List Task)
    (h1 : sanitizeInput s ≠ "")
    (h2 : (sanitizeInput s).length ≤ taskRules.maxLength)
    (h3 : jsTrim (sanitizeInput s) = sanitizeInput s) :
    (validateTaskInput (sanitizeInput s) existing).cleaned = sanitizeInput s := by
  have hne : jsTrim (sanitizeInput s) ≠ "" := by
    rw [h3]
    exact h1
  rw [validate_cleaned_of_trimmed _ existing hne, h3]

/-- Witness: `c7_sanitize_validate_cleaned` applied to the input `"hello  world"`. -/
theorem c7_sanitize_validate_cleaned_witness :
    sanitizeInput "hello  world" ≠ "" ∧
    (sanitizeInput "hello  world").length ≤ taskRules.maxLength ∧
    jsTrim (sanitizeInput "hello  world") = sanitizeInput "hello  world" ∧
    (validateTaskInput (sanitizeInput "hello  world") []).cleaned =
      sanitizeInput "hello  world" :=
  ⟨by decide, by decide, by decide,
   c7_sanitize_validate_cleaned "hello  world" [] (by decide) (by decide) (by decide)⟩

/-- C2 (counterexample to the claim as stated): toggling a missing id on a
fresh store leaves the task list and persisted copy alone, but the undo
history grows by one entry, because `toggleTask` calls `saveState()` before
looking the id up. -/
theorem c2_counterexample :
    (toggleTask freshApp 5 "t").tasks = freshApp.tasks ∧
    (toggleTask freshApp 5 "t").storage = freshApp.storage ∧
    (toggleTask freshApp 5 "t").history ≠ freshApp.history :=
  ⟨rfl, rfl, by decide⟩

/-- C2 (amended): toggling an id that is absent from the task collection
leaves the task list and the persisted copy unchanged and escalates no
error, but it is not a complete no-op: the state is exactly `saveState st`,
i.e. a snapshot of the unchanged task list has been pushed onto the undo
history. -/
theorem c2_toggle_missing (st : AppState) (taskId : ℚ) (nowIso : String)
    (h : st.tasks.find? (fun t => t.id == taskId) = none) :
    toggleTask st taskId nowIso = saveState st ∧
    (toggleTask st taskId nowIso).tasks = st.tasks ∧
    (toggleTask st taskId nowIso).storage = st.storage := by
  have heq : toggleTask st taskId nowIso =
      (match (saveState st).tasks.find? (fun t => t.id == taskId) with
       | some _ =>
         saveData { saveState st with tasks := (updateFirst (fun t => t.id == taskId)
             (fun t => { t with completed := !t.completed, updatedAt := nowIso })
             (saveState st).tasks) } nowIso
       | none => saveState st) := rfl
  have h' : (saveState st).tasks.find? (fun t => t.id == taskId) = none := h
  have h1 : toggleTask st taskId nowIso = saveState st := by
    rw [heq, h']
  refine ⟨h1, ?_, ?_⟩
  · rw [h1]
    rfl
  · rw [h1]
    rfl

/-- Witness: `c2_toggle_missing` applied to a one-task store and the absent id `5`. -/
theorem c2_toggle_missing_witness :
    [sampleActive].find? (fun t => t.id == 5) = none ∧
    toggleTask { freshApp with tasks := [sampleActive] } 5 "t" =
      saveState { freshApp with tasks := [sampleActive] } ∧
    (toggleTask { freshApp with tasks := [sampleActive] } 5 "t").tasks =
      [sampleActive] ∧
    (toggleTask { freshApp with tasks := [sampleActive] } 5 "t").storage =
      emptyStore :=
  ⟨by decide,
   (c2_toggle_missing { freshApp with tasks := [sampleActive] } 5 "t" (by decide)).1,
   (c2_toggle_missing { freshApp with tasks := [sampleActive] } 5 "t" (by decide)).2.1,
   (c2_toggle_missing { freshApp with tasks := [sampleActive] } 5 "t" (by decide)).2.2⟩

/-- Every encoded in-memory task passes the structural filter of
`saveTasks` (object with numeric `id`, string `text`, boolean `completed`). -/
theorem isValidTaskJ_encodeTask (t : Task) : isValidTaskJ (encodeTask t) = true := rfl

/-- Lemma: `saveTasks` keeps a list of encoded tasks intact. -/
theorem filter_valid_encodeTask (T : List Task) :
    (T.map encodeTask).filter isValidTaskJ = T.map encodeTask := by
  induction T with
  | nil => rfl
  | cons t rest ih =>
    simp only [List.map_cons, List.filter_cons, isValidTaskJ_encodeTask, if_pos]
    rw [ih]

/-- The defaulting body of `loadTasks` is the identity on an encoded task
whose id is non-zero and whose timestamps are non-empty (the JS-falsy
values that would trigger the `||` defaults). -/
theorem decodeElem_encodeTask (now : ℚ) (nowIso : String) (t : Task)
    (hid : t.id ≠ 0) (hc : t.createdAt ≠ "") (hu : t.updatedAt ≠ "") :
    decodeElem now nowIso (encodeTask t) = some (encodeTask t) := by
  have hid' : (t.id == 0) = false := beq_eq_false_iff_ne.mpr hid
  have hc' : (t.createdAt == "") = false := beq_eq_false_iff_ne.mpr hc
  have hu' : (t.updatedAt == "") = false := beq_eq_false_iff_ne.mpr hu
  by_cases ht : t.text = ""
  · simp [decodeElem, encodeTask, getField, List.lookup, jsOr, truthy, truthyOpt,
      hid', hc', hu', ht]
  · have ht' : (t.text == "") = false := beq_eq_false_iff_ne.mpr ht
    simp [decodeElem, encodeTask, getField, List.lookup, jsOr, truthy, truthyOpt,
      hid', hc', hu', ht']

/-- Lemma: `decodeAll` is the identity on a list each of whose elements decodes to
itself. -/
theorem decodeAll_id (now : ℚ) (nowIso : String) (l : List JValue)
    (h : ∀ v ∈ l, decodeElem now nowIso v = some v) :
    decodeAll now nowIso l = some l := by
  induction l with
  | nil => rfl
  | cons x xs ih =>
    have hx := h x (List.mem_cons_self x xs)
    have hxs := ih (fun v hv => h v (List.mem_cons_of_mem x hv))
    simp only [decodeAll, hx, hxs]

/-- C3 (counterexample to the claim as stated): the structurally valid task
with numeric id `0` does not survive a write/read cycle — `loadTasks`
back-fills every falsy `id` with `Date.now()` (here `1`). -/
theorem c3_counterexample :
    loadTasks ((saveTasks (JValue.arr ([zeroIdTask].map encodeTask)) emptyStore "w").2.tasksRaw)
        1 "r" ≠ [zeroIdTask].map encodeTask := by
  intro hcontra
  have hL : loadTasks ((saveTasks (JValue.arr ([zeroIdTask].map encodeTask))
      emptyStore "w").2.tasksRaw) 1 "r" =
      [JValue.obj
        [("id", JValue.num 1), ("text", JValue.str "a"), ("completed", JValue.bool false),
         ("createdAt", JValue.str "c0"), ("updatedAt", JValue.str "u0")]] := rfl
  rw [hL] at hcontra
  simp only [List.map_cons, List.map_nil, encodeTask, zeroIdTask, List.cons.injEq,
    JValue.obj.injEq, Prod.mk.injEq, JValue.num.injEq, JValue.str.injEq, JValue.bool.injEq,
    and_true, true_and] at hcontra
  exact one_ne_zero hcontra

/-- C3 (amended): writing a list of structurally valid tasks and reading it
back is the identity (same tasks, same fields, same order) provided no field
is JS-falsy where the read path applies `||` defaults: every `id` is
non-zero and both timestamps are non-empty strings. -/
theorem c3_write_read_roundtrip (T : List Task) (st : StoreState)
    (isoW : String) (now : ℚ) (isoR : String)
    (h : ∀ t ∈ T, t.id ≠ 0 ∧ t.createdAt ≠ "" ∧ t.updatedAt ≠ "") :
    loadTasks ((saveTasks (JValue.arr (T.map encodeTask)) st isoW).2.tasksRaw) now isoR
      = T.map encodeTask := by
  have hsave : (saveTasks (JValue.arr (T.map encodeTask)) st isoW).2.tasksRaw
      = RawContent.parsed (JValue.arr ((T.map encodeTask).filter isValidTaskJ)) := rfl
  rw [hsave, filter_valid_encodeTask]
  have hdec : decodeAll now isoR (T.map encodeTask) = some (T.map encodeTask) := by
    refine decodeAll_id now isoR (T.map encodeTask) ?_
    intro v hv
    obtain ⟨t, ht, rfl⟩ := List.mem_map.mp hv
    obtain ⟨h1, h2, h3⟩ := h t ht
    exact decodeElem_encodeTask now isoR t h1 h2 h3
  show (match decodeAll now isoR (T.map encodeTask) with
        | some tasks => tasks
        | none => []) = T.map encodeTask
  rw [hdec]

/-- Witness: `c3_write_read_roundtrip` applied to a singleton list holding a task
with id `1` and non-empty timestamps. -/
theorem c3_write_read_roundtrip_witness :
    (∀ t ∈ [sampleActive], t.id ≠ 0 ∧ t.createdAt ≠ "" ∧ t.updatedAt ≠ "") ∧
    loadTasks ((saveTasks (JValue.arr ([sampleActive].map encodeTask)) emptyStore "w").2.tasksRaw)
        9 "r" = [sampleActive].map encodeTask := by
  have hmem : ∀ t ∈ [sampleActive], t.id ≠ 0 ∧ t.createdAt ≠ "" ∧ t.updatedAt ≠ "" := by
    intro t ht
    rw [List.mem_singleton] at ht
    subst ht
    refine ⟨?_, ?_, ?_⟩
    · intro hzero
      exact absurd (congrArg Rat.num hzero) (by decide)
    · intro habs
      exact absurd habs (by decide)
    · intro habs
      exact absurd habs (by decide)
  exact ⟨hmem, c3_write_read_roundtrip [sampleActive] emptyStore "w" 9 "r" hmem⟩

/-- The task list after one create: the new task is prepended exactly when
validation succeeded, with id `nowMs + rand`. -/
theorem submitTask_tasks (st : AppState) (input : String) (nowMs rand : ℚ) (nowIso : String) :
    (submitTask st input nowMs rand nowIso).tasks =
      if (validateTaskInput input st.tasks).isValid = true then
        createTask (validateTaskInput input st.tasks).cleaned nowMs rand nowIso :: st.tasks
      else st.tasks := by
  by_cases h : (validateTaskInput input st.tasks).isValid = true
  · simp [submitTask, addTask, saveData, saveState, h]
  · simp [submitTask, h]

/-- Bounded-id invariant for a create sequence: starting below `b` with
distinct ids, a chain of creates whose clock values advance by at least one
millisecond, with random draws in `[0,1)`, keeps all ids distinct. -/
theorem createSeq_aux (envs : List CreateEnv) :
    ∀ (st : AppState) (b : ℚ),
    IdsBelow b st.tasks →
    (st.tasks.map Task.id).Nodup →
    (∀ e ∈ envs, 0 ≤ e.rand ∧ e.rand < 1) →
    List.Chain' (fun x y => x.nowMs + 1 ≤ y.nowMs) envs →
    (∀ e ∈ envs.head?, b ≤ e.nowMs) →
    ((applyOps st (createOps envs)).tasks.map Task.id).Nodup := by
  induction envs with
  | nil =>
    intro st b _ hnodup _ _ _
    exact hnodup
  | cons e rest ih =>
    intro st b hbelow hnodup hrand hchain hstart
    have hbe : b ≤ e.nowMs := hstart e rfl
    obtain ⟨hr0, hr1⟩ := hrand e (List.mem_cons_self e rest)
    obtain ⟨hhead, htail⟩ := List.chain'_cons'.mp hchain
    have hops : createOps (e :: rest) =
        Op.create e.input e.nowMs e.rand e.nowIso :: createOps rest := rfl
    rw [hops]
    show ((applyOps (applyOp st (Op.create e.input e.nowMs e.rand e.nowIso))
      (createOps rest)).tasks.map Task.id).Nodup
    set st' := applyOp st (Op.create e.input e.nowMs e.rand e.nowIso) with hst'
    have htasks : st'.tasks =
        if (validateTaskInput e.input st.tasks).isValid = true then
          createTask (validateTaskInput e.input st.tasks).cleaned e.nowMs e.rand e.nowIso
            :: st.tasks
        else st.tasks := submitTask_tasks st e.input e.nowMs e.rand e.nowIso
    have hbelow' : IdsBelow (e.nowMs + 1) st'.tasks := by
      rw [htasks]
      intro t ht
      by_cases hv : (validateTaskInput e.input st.tasks).isValid = true
      · rw [if_pos hv] at ht
        rcases List.mem_cons.mp ht with rfl | hmem
        · show e.nowMs + e.rand < e.nowMs + 1
          exact add_lt_add_left hr1 e.nowMs
        · exact lt_of_lt_of_le (hbelow t hmem) (by linarith)
      · rw [if_neg hv] at ht
        exact lt_of_lt_of_le (hbelow t ht) (by linarith)
    have hnodup' : (st'.tasks.map Task.id).Nodup := by
      rw [htasks]
      by_cases hv : (validateTaskInput e.input st.tasks).isValid = true
      · rw [if_pos hv]
        rw [List.map_cons, List.nodup_cons]
        refine ⟨?_, hnodup⟩
        intro hmem
        obtain ⟨t, htmem, hteq⟩ := List.mem_map.mp hmem
        have hlt : t.id < e.nowMs := lt_of_lt_of_le (hbelow t htmem) hbe
        have hge : e.nowMs ≤ e.nowMs + e.rand := le_add_of_nonneg_right hr0
        rw [hteq] at hlt
        have hcid : (createTask (validateTaskInput e.input st.tasks).cleaned
            e.nowMs e.rand e.nowIso).id = e.nowMs + e.rand := rfl
        rw [hcid] at hlt
        linarith
      · rw [if_neg hv]
        exact hnodup
    have hstart' : ∀ y ∈ rest.head?, e.nowMs + 1 ≤ y.nowMs := hhead
    exact ih st' (e.nowMs + 1) hbelow' hnodup' (fun x hx => hrand x (List.mem_cons_of_mem e hx))
      htail hstart'

/-- C5 (counterexample to the claim as stated): two successful creates made
in the same millisecond with the same `Math.random()` draw produce two tasks
whose ids are both `0 + 0` — the ids are not pairwise distinct. -/
theorem c5_counterexample :
    ((applyOps freshApp (createOps [envA, envDup])).tasks.map Task.id) = [0 + 0, 0 + 0] ∧
    ¬ ((applyOps freshApp (createOps [envA, envDup])).tasks.map Task.id).Nodup := by
  constructor
  · rfl
  · intro hnd
    rw [show ((applyOps freshApp (createOps [envA, envDup])).tasks.map Task.id)
        = [(0:ℚ) + 0, 0 + 0] from rfl, List.nodup_cons] at hnd
    exact hnd.1 (List.mem_singleton.mpr rfl)

/-- C5 (amended): along any sequence of creates started on an empty store
whose `Date.now()` values advance by at least one millisecond between
successive calls and whose `Math.random()` draws lie in `[0,1)`, all task
ids in the resulting store are pairwise distinct.  (Creates within the same
millisecond rely on distinct random draws, which is not guaranteed.) -/
theorem c5_create_ids_distinct (envs : List CreateEnv) (st : AppState)
    (hempty : st.tasks = [])
    (hrand : ∀ e ∈ envs, 0 ≤ e.rand ∧ e.rand < 1)
    (hchain : List.Chain' (fun x y => x.nowMs + 1 ≤ y.nowMs) envs) :
    ((applyOps st (createOps envs)).tasks.map Task.id).Nodup := by
  cases envs with
  | nil =>
    show ((st.tasks).map Task.id).Nodup
    rw [hempty]
    exact List.nodup_nil
  | cons e rest =>
    refine createSeq_aux (e :: rest) st e.nowMs ?_ ?_ hrand hchain ?_
    · intro t ht
      rw [hempty] at ht
      cases ht
    · rw [hempty]
      exact List.nodup_nil
    · intro y hy
      cases hy
      exact le_refl _

/-- Witness: `c5_create_ids_distinct` applied to two creates one millisecond apart,
both drawing random value 0. -/
theorem c5_create_ids_distinct_witness :
    freshApp.tasks = [] ∧
    (∀ e ∈ [envA, envB], 0 ≤ e.rand ∧ e.rand < 1) ∧
    List.Chain' (fun x y => x.nowMs + 1 ≤ y.nowMs) [envA, envB] ∧
    ((applyOps freshApp (createOps [envA, envB])).tasks.map Task.id).Nodup := by
  have hrand : ∀ e ∈ [envA, envB], 0 ≤ e.rand ∧ e.rand < 1 := by
    intro e he
    rcases List.mem_cons.mp he with rfl | he2
    · constructor
      · show (0:ℚ) ≤ 0
        norm_num
      · show (0:ℚ) < 1
        norm_num
    · rcases List.mem_cons.mp he2 with rfl | he3
      · constructor
        · show (0:ℚ) ≤ 0
          norm_num
        · show (0:ℚ) < 1
          norm_num
      · cases he3
  have hchain : List.Chain' (fun x y => x.nowMs + 1 ≤ y.nowMs) [envA, envB] := by
    refine List.chain'_cons.mpr ⟨?_, List.chain'_singleton _⟩
    show (0:ℚ) + 1 ≤ 1
    norm_num
  exact ⟨rfl, hrand, hchain, c5_create_ids_distinct [envA, envB] freshApp rfl hrand hchain⟩

/-- Below capacity, the history update is a plain push. -/
theorem historyAfterPush_no_shift (h : List (List Task)) (snap : List Task)
    (hle : h.length + 1 ≤ 50) :
    historyAfterPush h snap = h ++ [snap] := by
  unfold historyAfterPush
  rw [if_neg]
  rw [List.length_append, List.length_singleton]
  omega

/-- When `historyIndex > 0`, `undo` keeps the history, decrements the index
and reinstates the snapshot at the decremented position. -/
theorem undo_components (st : AppState) (nowIso : String) (h : 0 < st.historyIndex) :
    (undo st nowIso).tasks = st.history.getD (st.historyIndex - 1).toNat [] ∧
    (undo st nowIso).history = st.history ∧
    (undo st nowIso).historyIndex = st.historyIndex - 1 := by
  have he : undo st nowIso =
      saveData { st with
        historyIndex := st.historyIndex - 1
        tasks := st.history.getD (st.historyIndex - 1).toNat [] } nowIso := by
    unfold undo
    rw [if_pos h]
  rw [he]
  exact ⟨rfl, rfl, rfl⟩

/-- When `historyIndex ≤ 0`, `undo` is the identity. -/
theorem undo_stuck (st : AppState) (nowIso : String) (h : st.historyIndex ≤ 0) :
    undo st nowIso = st := by
  unfold undo
  rw [if_neg (by omega)]

/-- Once the index has reached the bottom, further undos change nothing. -/
theorem undoN_stuck (j : Nat) (st : AppState) (nowIso : String)
    (h : st.historyIndex ≤ 0) :
    undoN j st nowIso = st := by
  induction j with
  | zero => rfl
  | succ m ih =>
    show undoN m (undo st nowIso) nowIso = st
    rw [undo_stuck st nowIso h]
    exact ih

/-- Starting from any state whose index is at least 1 and at most `j`,
`j` undos land on the oldest history entry, leaving the history itself
untouched. -/
theorem undoN_reaches_bottom (j : Nat) :
    ∀ (st : AppState) (nowIso : String),
    1 ≤ st.historyIndex →
    st.historyIndex ≤ (j : Int) →
    (undoN j st nowIso).tasks = st.history.getD 0 [] ∧
    (undoN j st nowIso).history = st.history := by
  induction j with
  | zero =>
    intro st nowIso h1 h2
    exact absurd h2 (by omega)
  | succ m ih =>
    intro st nowIso h1 h2
    obtain ⟨ht, hh, hi⟩ := undo_components st nowIso (by omega)
    show (undoN m (undo st nowIso) nowIso).tasks = st.history.getD 0 [] ∧
         (undoN m (undo st nowIso) nowIso).history = st.history
    by_cases hcase : 1 ≤ (undo st nowIso).historyIndex
    · have h2' : (undo st nowIso).historyIndex ≤ (m : Int) := by
        rw [hi]
        push_cast at h2 ⊢
        omega
      obtain ⟨ih1, ih2⟩ := ih (undo st nowIso) nowIso hcase h2'
      rw [ih1, ih2, hh]
      exact ⟨rfl, rfl⟩
    · have hone : st.historyIndex = 1 := by
        rw [hi] at hcase
        omega
      have hfix := undoN_stuck m (undo st nowIso) nowIso (by rw [hi, hone]; norm_num)
      rw [hfix, ht, hh, hone]
      norm_num

/-- A sequence records exactly one snapshot per operation. -/
theorem snapshots_length (ops : List Op) :
    ∀ st : AppState, (snapshots st ops).length = ops.length := by
  induction ops with
  | nil => intro st; rfl
  | cons op rest ih =>
    intro st
    show (st.tasks :: snapshots (applyOp st op) rest).length = (op :: rest).length
    rw [List.length_cons, List.length_cons, ih]

/-- Along a sequence of history-pushing operations that stays within the
50-entry capacity, the final history is the initial one extended by the
pre-operation snapshots, and the index tracks the last entry. -/
theorem applyOps_push_history (ops : List Op) :
    ∀ (st : AppState),
    AllPush st ops →
    st.history.length + ops.length ≤ 50 →
    st.historyIndex = (st.history.length : Int) - 1 →
    (applyOps st ops).history = st.history ++ snapshots st ops ∧
    (applyOps st ops).historyIndex = ((st.history.length + ops.length : Nat) : Int) - 1 := by
  induction ops with
  | nil =>
    intro st _ _ hidx
    constructor
    · show st.history = st.history ++ snapshots st []
      rw [show snapshots st [] = [] from rfl, List.append_nil]
    · simpa using hidx
  | cons op rest ih =>
    intro st hp hlen hidx
    obtain ⟨⟨hph, hpi⟩, hprest⟩ := hp
    have hcap : st.history.length + 1 ≤ 50 := by
      rw [List.length_cons] at hlen
      omega
    have hnoshift : (saveState st).history = st.history ++ [st.tasks] := by
      show historyAfterPush st.history st.tasks = st.history ++ [st.tasks]
      exact historyAfterPush_no_shift st.history st.tasks hcap
    have hssidx : (saveState st).historyIndex = ((st.history.length + 1 : Nat) : Int) - 1 := by
      show ((historyAfterPush st.history st.tasks).length : Int) - 1 = _
      rw [historyAfterPush_no_shift st.history st.tasks hcap]
      rw [List.length_append, List.length_singleton]
    have h1 : (applyOp st op).history = st.history ++ [st.tasks] := hph.trans hnoshift
    have h2 : (applyOp st op).historyIndex = ((st.history.length + 1 : Nat) : Int) - 1 :=
      hpi.trans hssidx
    have hlen' : (applyOp st op).history.length + rest.length ≤ 50 := by
      rw [h1, List.length_append, List.length_singleton]
      simp at hlen
      omega
    have hidx' : (applyOp st op).historyIndex = ((applyOp st op).history.length : Int) - 1 := by
      rw [h1, h2, List.length_append, List.length_singleton]
    obtain ⟨ihh, ihi⟩ := ih (applyOp st op) hprest hlen' hidx'
    constructor
    · show (applyOps (applyOp st op) rest).history = st.history ++ snapshots st (op :: rest)
      rw [ihh, h1,
        show snapshots st (op :: rest) = st.tasks :: snapshots (applyOp st op) rest from rfl,
        List.append_assoc, List.singleton_append]
    · show (applyOps (applyOp st op) rest).historyIndex =
        ((st.history.length + (op :: rest).length : Nat) : Int) - 1
      rw [ihi, h1, List.length_append, List.length_singleton, List.length_cons]
      push_cast
      ring_nf

/-- C1 (counterexample to the claim as stated): a single create followed by
a single undo does not restore the pre-mutation snapshot — `undo` requires
`historyIndex > 0`, so the very first undo after one mutation is a no-op and
the created task survives. -/
theorem c1_counterexample :
    (undoN 1 (applyOps freshApp [Op.create "a" 0 0 "t0"]) "u").tasks ≠ freshApp.tasks := by
  intro hcontra
  rw [show (undoN 1 (applyOps freshApp [Op.create "a" 0 0 "t0"]) "u").tasks
      = [createTask "a" 0 0 "t0"] from rfl,
    show freshApp.tasks = [] from rfl] at hcontra
  exact List.cons_ne_nil _ _ hcontra

/-- C1 (amended): from a store with empty undo history, after `n`
history-pushing operations with `2 ≤ n ≤ 50` (every listed mutating
operation pushes, except a rejected create, a rejected or unchanged edit and
an empty clear-completed, which leave the state entirely unchanged),
calling `undo` `n` times restores the task snapshot from before the first
operation.  For `n = 1` the property fails (see the counterexample): the
sequence of undos reaches the pre-first-mutation snapshot after `n - 1`
effective steps and the final call is a no-op. -/
theorem c1_undo_restores (ops : List Op) (st : AppState) (nowIso : String)
    (hhist : st.history = [])
    (hidx : st.historyIndex = -1)
    (hpush : AllPush st ops)
    (hn2 : 2 ≤ ops.length)
    (hn50 : ops.length ≤ 50) :
    (undoN ops.length (applyOps st ops) nowIso).tasks = st.tasks := by
  have hidx0 : st.historyIndex = (st.history.length : Int) - 1 := by
    rw [hhist, hidx]
    rfl
  have hlen0 : st.history.length + ops.length ≤ 50 := by
    rw [hhist]
    simpa using hn50
  obtain ⟨hfh, hfi⟩ := applyOps_push_history ops st hpush hlen0 hidx0
  rw [hhist, List.nil_append] at hfh
  rw [hhist] at hfi
  have hsnaplen : (snapshots st ops).length = ops.length := snapshots_length ops st
  have h1 : 1 ≤ (applyOps st ops).historyIndex := by
    rw [hfi]
    simp only [List.length_nil, Nat.zero_add]
    omega
  have h2 : (applyOps st ops).historyIndex ≤ (ops.length : Int) := by
    rw [hfi]
    simp only [List.length_nil, Nat.zero_add]
    omega
  obtain ⟨hres, _⟩ := undoN_reaches_bottom ops.length (applyOps st ops) nowIso h1 h2
  rw [hres, hfh]
  cases ops with
  | nil => exact absurd hn2 (by norm_num)
  | cons op rest =>
    show (st.tasks :: snapshots (applyOp st op) rest).getD 0 [] = st.tasks
    rfl

/-- Witness: `c1_undo_restores` applied to two creates from a fresh store, checking
that two undos return to the empty task list. -/
theorem c1_undo_restores_witness :
    freshApp.history = [] ∧
    freshApp.historyIndex = -1 ∧
    AllPush freshApp [Op.create "a" 0 0 "t0", Op.create "b" 1 0 "t1"] ∧
    (undoN 2 (applyOps freshApp [Op.create "a" 0 0 "t0", Op.create "b" 1 0 "t1"]) "u").tasks
      = freshApp.tasks :=
  ⟨rfl, rfl, ⟨⟨rfl, rfl⟩, ⟨rfl, rfl⟩, trivial⟩,
   c1_undo_restores [Op.create "a" 0 0 "t0", Op.create "b" 1 0 "t1"] freshApp "u"
     rfl rfl ⟨⟨rfl, rfl⟩, ⟨rfl, rfl⟩, trivial⟩ (by norm_num) (by norm_num)⟩

end TaskFlow
